import Mathlib

/-!
Verification of the Secure-Compute repository.

The repository contains three Python files:

* `src/homomorphic_simple.py` — a function-based linear obfuscation scheme:
  `encrypt(value, secret_key, multiplier)` draws `noise ∈ [1, 100]` and returns
  `(value * multiplier + secret_key + noise, noise)`;
  `decrypt(encrypted_value, noise, secret_key, multiplier)` returns
  `(encrypted_value - secret_key - noise) // multiplier` (Python floor
  division); `add_encrypted_numbers` adds the ciphertexts and the noises
  componentwise.  The module draws `secret_key ∈ [1000, 9999]` and
  `multiplier ∈ [100, 500]`.

* `src/homomorphic_step3.py` — the same scheme packaged as a class
  `SimpleHomomorphicEncryption` with methods `encrypt`, `decrypt` and
  `homomorphic_add`.

* `src/homomorphic_banking_demo.py` — a demo that calls the external `phe`
  Paillier library; the Paillier engine itself is not part of the repository,
  so where a claim is decided by it we model the engine from the spec
  (definitions marked `Modelled from the spec:`).

Python integers are unbounded, so plaintexts, keys, noises and ciphertexts are
embedded as `ℤ`; Python floor division `//` is `Int.fdiv`.  The per-call
randomness (`random.randint`) becomes an explicit argument, with its sampled
range appearing as a hypothesis where a statement needs it.
-/

namespace SecureCompute

/-- `encrypt` from `src/homomorphic_simple.py` (lines 42-61): draw `noise`,
return `((value * multiplier) + secret_key + noise, noise)`.  The random
`noise = random.randint(1, 100)` is passed explicitly. -/
def encrypt (value secret_key multiplier noise : ℤ) : ℤ × ℤ :=
  (value * multiplier + secret_key + noise, noise)

/-- `decrypt` from `src/homomorphic_simple.py` (lines 68-85):
`(encrypted_value - secret_key - noise) // multiplier`, with Python floor
division embedded as `Int.fdiv`. -/
def decrypt (encrypted_value noise secret_key multiplier : ℤ) : ℤ :=
  (encrypted_value - secret_key - noise).fdiv multiplier

/-- `add_encrypted_numbers` from `src/homomorphic_simple.py` (lines 92-109):
componentwise sum of the ciphertext values and of the noises; no validation of
any kind is performed. -/
def add_encrypted_numbers (encrypted1 noise1 encrypted2 noise2 : ℤ) : ℤ × ℤ :=
  (encrypted1 + encrypted2, noise1 + noise2)

/-- The key state of class `SimpleHomomorphicEncryption` from
`src/homomorphic_step3.py` (lines 31-34): `self.secret_key` and
`self.multiplier`, sampled once in `__init__`. -/
structure SimpleHomomorphicEncryption where
  secret_key : ℤ
  multiplier : ℤ

/-- Method `encrypt` of `SimpleHomomorphicEncryption`
(`src/homomorphic_step3.py` lines 39-47). -/
def SimpleHomomorphicEncryption.encrypt (self : SimpleHomomorphicEncryption)
    (value noise : ℤ) : ℤ × ℤ :=
  (value * self.multiplier + self.secret_key + noise, noise)

/-- Method `decrypt` of `SimpleHomomorphicEncryption`
(`src/homomorphic_step3.py` lines 49-53). -/
def SimpleHomomorphicEncryption.decrypt (self : SimpleHomomorphicEncryption)
    (encrypted_value noise : ℤ) : ℤ :=
  (encrypted_value - self.secret_key - noise).fdiv self.multiplier

/-- Method `homomorphic_add` of `SimpleHomomorphicEncryption`
(`src/homomorphic_step3.py` lines 55-67): unpacks the two
(value, noise) pairs and adds componentwise. -/
def SimpleHomomorphicEncryption.homomorphic_add
    (_self : SimpleHomomorphicEncryption) (encrypted1 encrypted2 : ℤ × ℤ) :
    ℤ × ℤ :=
  (encrypted1.1 + encrypted2.1, encrypted1.2 + encrypted2.2)

/-- The class-based scheme of `homomorphic_step3.py` computes the same
encryption function as the function-based scheme of `homomorphic_simple.py`. -/
theorem step3_encrypt_eq (k : SimpleHomomorphicEncryption)
    (value noise : ℤ) :
    k.encrypt value noise = encrypt value k.secret_key k.multiplier noise := rfl

/-- The class-based scheme of `homomorphic_step3.py` computes the same
decryption function as the function-based scheme of `homomorphic_simple.py`. -/
theorem step3_decrypt_eq (k : SimpleHomomorphicEncryption)
    (encrypted_value noise : ℤ) :
    k.decrypt encrypted_value noise =
      decrypt encrypted_value noise k.secret_key k.multiplier := rfl

/-- The class-based homomorphic addition agrees with `add_encrypted_numbers`. -/
theorem step3_homomorphic_add_eq
    (k : SimpleHomomorphicEncryption) (c1 c2 : ℤ × ℤ) :
    k.homomorphic_add c1 c2 = add_encrypted_numbers c1.1 c1.2 c2.1 c2.2 := rfl

/-- Helper: floor division recovers the value after the linear encryption is
unwound, for any positive multiplier. -/
theorem decrypt_encrypt (value secret_key multiplier noise : ℤ)
    (hm : 0 < multiplier) :
    decrypt (encrypt value secret_key multiplier noise).1
      (encrypt value secret_key multiplier noise).2 secret_key multiplier =
      value := by
  unfold decrypt encrypt
  have h1 : value * multiplier + secret_key + noise - secret_key - noise =
      value * multiplier := by ring
  rw [h1, Int.mul_fdiv_cancel _ (ne_of_gt hm)]

/-- C2: Round-trip.  For every integer plaintext `m`, every key material
(`secret_key`, positive `multiplier`) and every choice of the per-encryption
random noise, decrypting the encryption of `m` under the same key returns
exactly `m`.  In the source the multiplier is sampled from `[100, 500]`, so it
is positive; the theorem holds for every noise value, not only the sampled
range `[1, 100]`. -/
theorem C2_encrypt_decrypt_roundtrip (m secret_key multiplier noise : ℤ)
    (hm : 0 < multiplier) :
    decrypt (encrypt m secret_key multiplier noise).1
      (encrypt m secret_key multiplier noise).2 secret_key multiplier = m :=
  decrypt_encrypt m secret_key multiplier noise hm

/-- C2 witness: the round-trip theorem applied at the demo plaintext 5000 with
`secret_key = 1000`, `multiplier = 100`, `noise = 7`. -/
theorem C2_encrypt_decrypt_roundtrip_witness :
    decrypt (encrypt 5000 1000 100 7).1 (encrypt 5000 1000 100 7).2 1000 100 =
      5000 :=
  C2_encrypt_decrypt_roundtrip 5000 1000 100 7 (by decide)

/-- Decrypting the homomorphic sum of two encryptions under one key yields
`m1 + m2 + secret_key.fdiv multiplier`, not `m1 + m2`: the subtraction inside
`decrypt` removes the secret key only once although the sum of the two
ciphertexts contains it twice.  With the sampled ranges
`secret_key ∈ [1000, 9999]` and `multiplier ∈ [100, 500]` the error term
`secret_key.fdiv multiplier` is at least `2`, so the sum is never recovered
exactly. -/
theorem decrypt_add_encrypted (m1 m2 secret_key multiplier n1 n2 : ℤ)
    (hm : 0 < multiplier) :
    decrypt
      (add_encrypted_numbers (encrypt m1 secret_key multiplier n1).1 n1
        (encrypt m2 secret_key multiplier n2).1 n2).1
      (add_encrypted_numbers (encrypt m1 secret_key multiplier n1).1 n1
        (encrypt m2 secret_key multiplier n2).1 n2).2
      secret_key multiplier =
      m1 + m2 + secret_key.fdiv multiplier := by
  unfold decrypt add_encrypted_numbers encrypt
  have h1 : m1 * multiplier + secret_key + n1 +
      (m2 * multiplier + secret_key + n2) - secret_key - (n1 + n2) =
      secret_key + (m1 + m2) * multiplier := by ring
  rw [h1, Int.fdiv_eq_ediv _ (le_of_lt hm), Int.fdiv_eq_ediv _ (le_of_lt hm),
    Int.add_mul_ediv_right _ _ (ne_of_gt hm)]
  ring

/-- C1: evaluation of the code at the failing input.  With
`secret_key = 1000`, `multiplier = 100`, plaintexts `m1 = 5000`, `m2 = 12000`
and noises `1` and `1`, adding the two encryptions with
`add_encrypted_numbers` and decrypting yields `17010`, not
`m1 + m2 = 17000`: the homomorphic-addition claim fails on the source (the
decrypted sum always carries the spurious term
`secret_key.fdiv multiplier ≥ 2`), contradicting the verification step of
`homomorphic_simple.py` itself, which expects the decrypted total to equal the
plaintext total. -/
theorem C1_add_decrypt_off_at_demo_input :
    decrypt
      (add_encrypted_numbers (encrypt 5000 1000 100 1).1
        (encrypt 5000 1000 100 1).2 (encrypt 12000 1000 100 1).1
        (encrypt 12000 1000 100 1).2).1
      (add_encrypted_numbers (encrypt 5000 1000 100 1).1
        (encrypt 5000 1000 100 1).2 (encrypt 12000 1000 100 1).1
        (encrypt 12000 1000 100 1).2).2
      1000 100 = 17010 ∧ (17010 : ℤ) ≠ 5000 + 12000 := by decide

/-- C4 counterexample: encryption reads the private key material directly.
Two distinct secret keys (`1000` and `1001`), same plaintext `5`, same
multiplier `100` and same noise `1` produce different ciphertexts
(`1501` vs `1502`), so encryption is not independent of the private key. -/
theorem C4_counterexample_distinct_keys_distinct_ciphertexts :
    (encrypt 5 1000 100 1).1 ≠ (encrypt 5 1001 100 1).1 := by decide

/-- C4 as amended: in the source there is no separate public key — `encrypt`
takes the secret key itself — and the ciphertext depends on it: for the same
plaintext, multiplier and noise, encryptions under distinct secret keys are
always distinct (the secret key enters the ciphertext additively). -/
theorem C4_encrypt_depends_on_secret_key (value multiplier noise sk1 sk2 : ℤ)
    (h : sk1 ≠ sk2) :
    (encrypt value sk1 multiplier noise).1 ≠
      (encrypt value sk2 multiplier noise).1 := by
  unfold encrypt
  intro heq
  have h2 : value * multiplier + sk1 + noise =
      value * multiplier + sk2 + noise := heq
  exact h (by linarith)

/-- C4 witness: the amended dependence theorem at concrete keys. -/
theorem C4_encrypt_depends_on_secret_key_witness :
    (encrypt 7 1000 100 3).1 ≠ (encrypt 7 2000 100 3).1 :=
  C4_encrypt_depends_on_secret_key 7 100 3 1000 2000 (by decide)

/-- C5 counterexample: `add_encrypted_numbers` performs no key validation and
the repository defines no `KeyMismatchError`.  Combining a ciphertext made
under key `(secret_key, multiplier) = (1000, 100)` (plaintext `5`) with one
made under `(2000, 200)` (plaintext `7`) silently returns the pair
`(4902, 2)`; decrypting it under the first key yields `39`, not the sum
`5 + 7 = 12` and not a failure. -/
theorem C5_counterexample_silent_cross_key_add :
    add_encrypted_numbers (encrypt 5 1000 100 1).1 (encrypt 5 1000 100 1).2
        (encrypt 7 2000 200 1).1 (encrypt 7 2000 200 1).2 = (4902, 2) ∧
      decrypt 4902 2 1000 100 = 39 ∧ (39 : ℤ) ≠ 5 + 7 := by decide

/-- C5 as amended: the add operation is a total function with no modulus
check; applied to encryptions produced under two different keys it returns
their componentwise sum, which decrypts under the first key to
`m1 + (m2 * multiplier2 + secret_key2).fdiv multiplier1` — in general not
`m1 + m2` — instead of failing. -/
theorem C5_cross_key_add_decrypts_wrong (m1 sk1 mult1 n1 m2 sk2 mult2 n2 : ℤ)
    (hm : 0 < mult1) :
    decrypt
      (add_encrypted_numbers (encrypt m1 sk1 mult1 n1).1 n1
        (encrypt m2 sk2 mult2 n2).1 n2).1
      (add_encrypted_numbers (encrypt m1 sk1 mult1 n1).1 n1
        (encrypt m2 sk2 mult2 n2).1 n2).2
      sk1 mult1 =
      m1 + (m2 * mult2 + sk2).fdiv mult1 := by
  unfold decrypt add_encrypted_numbers encrypt
  have h1 : m1 * mult1 + sk1 + n1 + (m2 * mult2 + sk2 + n2) - sk1 -
      (n1 + n2) = m2 * mult2 + sk2 + m1 * mult1 := by ring
  rw [h1, Int.fdiv_eq_ediv _ (le_of_lt hm), Int.fdiv_eq_ediv _ (le_of_lt hm),
    Int.add_mul_ediv_right _ _ (ne_of_gt hm)]
  ring

/-- C5 witness: the amended cross-key formula at the counterexample values. -/
theorem C5_cross_key_add_decrypts_wrong_witness :
    decrypt
      (add_encrypted_numbers (encrypt 5 1000 100 1).1 1
        (encrypt 7 2000 200 1).1 1).1
      (add_encrypted_numbers (encrypt 5 1000 100 1).1 1
        (encrypt 7 2000 200 1).1 1).2
      1000 100 =
      5 + ((7 : ℤ) * 200 + 2000).fdiv 100 :=
  C5_cross_key_add_decrypts_wrong 5 1000 100 1 7 2000 200 1 (by decide)

/-- C6 counterexample: `encrypt` performs no range validation and the
repository defines no `InvalidPlaintextError`.  The negative plaintext `-1`
(out of range under the documented encoding `0 ≤ m < n`) is encrypted without
failure, returning the ordinary ciphertext pair `(901, 1)`. -/
theorem C6_counterexample_negative_plaintext_accepted :
    encrypt (-1) 1000 100 1 = (901, 1) := by decide

/-- C6 as amended: encryption never rejects a plaintext — it is total over ℤ.
Even out-of-range (negative) plaintexts are encrypted without error and
round-trip exactly through decryption. -/
theorem C6_out_of_range_plaintext_accepted (m secret_key multiplier noise : ℤ)
    (_hneg : m < 0) (hm : 0 < multiplier) :
    decrypt (encrypt m secret_key multiplier noise).1
      (encrypt m secret_key multiplier noise).2 secret_key multiplier = m :=
  decrypt_encrypt m secret_key multiplier noise hm

/-- C6 witness: the amended theorem at the out-of-range plaintext `-1`. -/
theorem C6_out_of_range_plaintext_accepted_witness :
    decrypt (encrypt (-1) 1000 100 1).1 (encrypt (-1) 1000 100 1).2 1000 100 =
      -1 :=
  C6_out_of_range_plaintext_accepted (-1) 1000 100 1 (by decide) (by decide)

/-- C7 counterexample: `decrypt` is total and unvalidated.  On the invalid
ciphertext `0` (not an element of the multiplicative group mod `n²` for any
modulus) with `noise = 1`, `secret_key = 1000`, `multiplier = 100` it returns
the ordinary negative integer `-11` instead of failing with
`DecryptionError`, and `-11` lies outside `[0, n)` for every `n`. -/
theorem C7_counterexample_invalid_ciphertext_returns_value :
    decrypt 0 1 1000 100 = -11 ∧ ¬ (0 : ℤ) ≤ -11 := by decide

/-- C7 as amended: decryption never fails and its output is not confined to
`[0, n)` for any bound: for every key and noise there is a ciphertext whose
decryption is the negative integer `-1`. -/
theorem C7_decrypt_total_attains_negative (secret_key noise multiplier : ℤ)
    (hm : multiplier ≠ 0) :
    decrypt (secret_key + noise - multiplier) noise secret_key multiplier =
      -1 := by
  unfold decrypt
  have h1 : secret_key + noise - multiplier - secret_key - noise =
      (-1) * multiplier := by ring
  rw [h1, Int.mul_fdiv_cancel _ hm]

/-- C7 witness: the amended theorem at `secret_key = 1000`, `noise = 1`,
`multiplier = 100`: the ciphertext `901` decrypts to `-1`. -/
theorem C7_decrypt_total_attains_negative_witness :
    decrypt (1000 + 1 - 100) 1 1000 100 = -1 :=
  C7_decrypt_total_attains_negative 1000 1 100 (by decide)

/-- A tree of homomorphic additions over (ciphertext, noise) pairs: the
possible associations and orders in which an aggregator (such as
`CentralServer.compute_encrypted_sum` in `src/homomorphic_banking_demo.py`,
which folds left, or the three-step combination in `homomorphic_simple.py`)
may combine a collection of ciphertexts with `add_encrypted_numbers`. -/
inductive AddTree where
  | leaf (c : ℤ × ℤ) : AddTree
  | node (l r : AddTree) : AddTree

/-- The combined (ciphertext, noise) pair a tree of `add_encrypted_numbers`
calls produces. -/
def AddTree.result : AddTree → ℤ × ℤ
  | .leaf c => c
  | .node l r =>
      add_encrypted_numbers l.result.1 l.result.2 r.result.1 r.result.2

/-- The (ciphertext, noise) leaves of an addition tree, left to right. -/
def AddTree.leaves : AddTree → List (ℤ × ℤ)
  | .leaf c => [c]
  | .node l r => l.leaves ++ r.leaves

/-- `add_encrypted_numbers` is componentwise addition on pairs. -/
theorem add_encrypted_numbers_eq_add (p q : ℤ × ℤ) :
    add_encrypted_numbers p.1 p.2 q.1 q.2 = p + q := rfl

/-- The value of an addition tree is the sum of its leaves, so it depends only
on the multiset of leaves. -/
theorem AddTree.result_eq_sum (t : AddTree) : t.result = t.leaves.sum := by
  induction t with
  | leaf c => simp [AddTree.result, AddTree.leaves]
  | node l r ihl ihr =>
      rw [AddTree.result, AddTree.leaves, add_encrypted_numbers_eq_add,
        ihl, ihr, List.sum_append]

/-- C8: order independence of aggregation.  Any two ways of combining a
collection of (ciphertext, noise) pairs with `add_encrypted_numbers` — any
association and any order, i.e. any two addition trees whose leaf lists are
permutations of each other — produce the same combined pair, hence decrypt to
the same result under any key.  In particular this covers every list of
plaintexts encrypted under one key: (A+B)+C, A+(B+C) and (B+A)+C all decrypt
equally. -/
theorem C8_aggregation_order_independent (t1 t2 : AddTree)
    (h : t1.leaves.Perm t2.leaves) (secret_key multiplier : ℤ) :
    decrypt t1.result.1 t1.result.2 secret_key multiplier =
      decrypt t2.result.1 t2.result.2 secret_key multiplier := by
  have hres : t1.result = t2.result := by
    rw [AddTree.result_eq_sum, AddTree.result_eq_sum, h.sum_eq]
  rw [hres]

/-- C8 witness: with the three demo encryptions
A = encrypt 5000 (noise 1), B = encrypt 12000 (noise 2), C = encrypt 8500
(noise 3) under `secret_key = 1000`, `multiplier = 100`, the trees (A+B)+C and
(B+A)+C decrypt to the same value. -/
theorem C8_aggregation_order_independent_witness :
    decrypt
      (AddTree.result (.node (.node (.leaf (501001, 1)) (.leaf (1201002, 2)))
        (.leaf (851003, 3)))).1
      (AddTree.result (.node (.node (.leaf (501001, 1)) (.leaf (1201002, 2)))
        (.leaf (851003, 3)))).2 1000 100 =
      decrypt
        (AddTree.result (.node (.node (.leaf (1201002, 2))
          (.leaf (501001, 1))) (.leaf (851003, 3)))).1
        (AddTree.result (.node (.node (.leaf (1201002, 2))
          (.leaf (501001, 1))) (.leaf (851003, 3)))).2 1000 100 :=
  C8_aggregation_order_independent
    (.node (.node (.leaf (501001, 1)) (.leaf (1201002, 2)))
      (.leaf (851003, 3)))
    (.node (.node (.leaf (1201002, 2)) (.leaf (501001, 1)))
      (.leaf (851003, 3)))
    (List.Perm.append_right [(851003, 3)]
      (List.Perm.swap (1201002, 2) (501001, 1) []))
    1000 100

/-- C9: probabilistic encryption.  Under one key, two encryptions of the same
plaintext `m` collide exactly when the two random noise draws coincide (so
they differ for every one of the `99` in `100` off-diagonal noise pairs), and
both always decrypt back to `m`. -/
theorem C9_distinct_noise_distinct_ciphertexts_same_plaintext
    (m secret_key multiplier n1 n2 : ℤ) (hm : 0 < multiplier) :
    ((encrypt m secret_key multiplier n1).1 =
        (encrypt m secret_key multiplier n2).1 ↔ n1 = n2) ∧
      decrypt (encrypt m secret_key multiplier n1).1
        (encrypt m secret_key multiplier n1).2 secret_key multiplier = m ∧
      decrypt (encrypt m secret_key multiplier n2).1
        (encrypt m secret_key multiplier n2).2 secret_key multiplier = m := by
  refine ⟨?_, decrypt_encrypt m secret_key multiplier n1 hm,
    decrypt_encrypt m secret_key multiplier n2 hm⟩
  constructor
  · intro heq
    have h2 : m * multiplier + secret_key + n1 =
        m * multiplier + secret_key + n2 := heq
    linarith
  · intro heq
    rw [encrypt, encrypt, heq]

/-- C9 witness: the theorem at `m = 5000`, `secret_key = 1000`,
`multiplier = 100`, noises `1` and `2`. -/
theorem C9_distinct_noise_distinct_ciphertexts_same_plaintext_witness :
    ((encrypt 5000 1000 100 1).1 = (encrypt 5000 1000 100 2).1 ↔
        (1 : ℤ) = 2) ∧
      decrypt (encrypt 5000 1000 100 1).1 (encrypt 5000 1000 100 1).2
        1000 100 = 5000 ∧
      decrypt (encrypt 5000 1000 100 2).1 (encrypt 5000 1000 100 2).2
        1000 100 = 5000 :=
  C9_distinct_noise_distinct_ciphertexts_same_plaintext 5000 1000 100 1 2
    (by decide)

/-- C10: implicit ordering leak of the linear obfuscation scheme.  For every
secret key, every multiplier in the sampled range `[100, 500]`, any two
plaintexts `v1 < v2` and any noises in the sampled range `[1, 100]`, the
ciphertext of `v1` is strictly below the ciphertext of `v2`: the gap
`(v2 - v1) * multiplier ≥ 100` always exceeds the largest possible noise
difference `99`, so plaintext order is readable off the ciphertexts without
any key. -/
theorem C10_encrypt_strict_mono (secret_key multiplier v1 v2 n1 n2 : ℤ)
    (hm1 : 100 ≤ multiplier) (_hm2 : multiplier ≤ 500) (hv : v1 < v2)
    (_hn1a : 1 ≤ n1) (hn1b : n1 ≤ 100) (hn2a : 1 ≤ n2) (_hn2b : n2 ≤ 100) :
    (encrypt v1 secret_key multiplier n1).1 <
      (encrypt v2 secret_key multiplier n2).1 := by
  unfold encrypt
  have hstep : v1 * multiplier + multiplier ≤ v2 * multiplier := by
    have h1 : (v1 + 1) * multiplier ≤ v2 * multiplier :=
      mul_le_mul_of_nonneg_right (by linarith) (by linarith)
    linarith [h1]
  show v1 * multiplier + secret_key + n1 < v2 * multiplier + secret_key + n2
  linarith

/-- C10 witness: the monotonicity theorem at `secret_key = 1000`,
`multiplier = 100`, `v1 = 5000 < v2 = 5001`, with the extreme noises
`n1 = 100` and `n2 = 1`. -/
theorem C10_encrypt_strict_mono_witness :
    (encrypt 5000 1000 100 100).1 < (encrypt 5001 1000 100 1).1 :=
  C10_encrypt_strict_mono 1000 100 5000 5001 100 1 (by decide) (by decide)
    (by decide) (by decide) (by decide) (by decide) (by decide)

/-- Modelled from the spec: the Paillier encryption operation of §4.2.  The
additive homomorphic engine itself lives in the external `phe` package (only
its callers are under `src/`), so it is modelled from the spec text:
`c = g^m · r^n mod n²`, with modulus `n`, generator `g`, plaintext exponent
`m` and blinding factor `r`; exponents are natural numbers. -/
def paillier_encrypt (n g m r : ℕ) : ℕ := g ^ m * r ^ n % n ^ 2

/-- Modelled from the spec: `scalar_multiply(c, k) = c^k mod n²` for a
non-negative integer `k` (§4.3); the non-negative integer multiplier is a
natural number by type. -/
def scalar_multiply (n c k : ℕ) : ℕ := c ^ k % n ^ 2

/-- C3 (supporting theorem on the spec-modelled engine): for every
non-negative integer `k`, scalar multiplication sends an encryption of `m`
with blinding `r` to exactly an encryption of `k·m` with blinding `r^k`, so
by the round-trip invariant of §3 it decrypts to `k·m mod n`.  The multiplier
is a natural number by type: no fractional multiplier exists in the modelled
engine.  (The banking demo nevertheless multiplies a ciphertext by the float
`0.8` at `src/homomorphic_banking_demo.py:310`, which is the divergence
recorded for this claim.) -/
theorem C3_scalar_multiply_is_repeated_addition (n g m r k : ℕ) :
    scalar_multiply n (paillier_encrypt n g m r) k =
      paillier_encrypt n g (k * m) (r ^ k) := by
  unfold scalar_multiply paillier_encrypt
  rw [← Nat.pow_mod]
  congr 1
  rw [mul_pow, ← pow_mul, ← pow_mul, ← pow_mul, mul_comm m k, mul_comm n k,
    mul_comm k n]

end SecureCompute
